import Mathlib

/-!
Verification of the neighbor-engine core of `pyiron_atomistics`
(`pyiron_atomistics/atomistics/structure/neighbors.py`).

The Python code is shallowly embedded: floats that can carry the `np.inf`
sentinel become the inductive type `RFloat` over exact rationals, stateful
attributes of the `Tree`/`Neighbors` classes become explicit records that
are threaded through functions, `raise ValueError` becomes `Except.error`,
and calls into external libraries (scipy's kd-tree `query`, `scipy.special`
functions, sklearn's `AgglomerativeClustering` fit) become function
parameters, since their code is not part of this repository.  Everything
that *is* code of `neighbors.py` — branch structure, sentinel handling,
cache fields, the estimation formulas — is translated line by line.
-/

namespace PyNeighbors

/-- A Python float as used by `neighbors.py`: either a finite value
(modelled exactly as a rational) or the sentinel `np.inf`.  NaN never
arises on the modelled code paths. -/
inductive RFloat where
  | fin : ℚ → RFloat
  | inf : RFloat
deriving DecidableEq, Repr

/-- The comparison `a < b` on floats (`np.inf` compares greater than every
finite value; `inf < inf` is false). -/
def RFloat.ltb : RFloat → RFloat → Bool
  | RFloat.fin a, RFloat.fin b => a < b
  | RFloat.fin _, RFloat.inf => true
  | RFloat.inf, _ => false

/-- The finite value carried by an `RFloat`; only ever applied on branches
where the Python code has already established the float is not `np.inf`. -/
def RFloat.toRat : RFloat → ℚ
  | RFloat.fin a => a
  | RFloat.inf => 0

/-- Pointwise minimum of two floats, as computed by `np.min`. -/
def RFloat.minb : RFloat → RFloat → RFloat
  | RFloat.fin a, RFloat.fin b => RFloat.fin (min a b)
  | RFloat.fin a, RFloat.inf => RFloat.fin a
  | RFloat.inf, b => b

/-- Multiplication of a float by a finite non-negative scalar
(`0.1 * np.inf` is `np.inf`). -/
def RFloat.mulQ (c : ℚ) : RFloat → RFloat
  | RFloat.fin a => RFloat.fin (c * a)
  | RFloat.inf => RFloat.inf

/-- Python's `int()` applied to a float: truncation toward zero. -/
def pyInt (q : ℚ) : ℤ := if 0 ≤ q then ⌊q⌋ else ⌈q⌉

/-- The mutable scalar state of a `Tree` engine that the neighbor-count
resolution touches: `self.num_neighbors` (`None` before the first
successful resolution) and `self.cutoff_radius`. -/
structure EngState where
  numNeighbors : Option ℤ
  cutoffRadius : RFloat
deriving DecidableEq, Repr

/-- Embeds `Tree._estimate_num_neighbors` (neighbors.py:417-444).  Returns the
updated engine state, the resolved neighbor count, and whether the
"larger search area" warning was emitted.  `gammaC` stands for the value
`8*gamma(1+1/p)**3/gamma(1+3/p)` computed by `scipy.special.gamma` for the
engine's norm order `p` (external library); `volume` stands for
`self._ref_structure.get_volume(per_atom=True)` (external structure
accessor). -/
def estimateNumNeighbors (s : EngState) (numNeighbors : Option ℤ)
    (cutoffRadius : RFloat) (widthBuffer gammaC volume : ℚ) :
    Except String (EngState × ℤ × Bool) :=
  if numNeighbors = none ∧ cutoffRadius = RFloat.inf ∧ s.numNeighbors = none then
    Except.error "Specify num_neighbors or cutoff_radius"
  else
    let nn : ℤ :=
      if numNeighbors = none ∧ s.numNeighbors = none then
        -- width_buffer = 1 + width_buffer
        -- width_buffer *= 8*gamma(1+1/norm_order)**3/gamma(1+3/norm_order)
        -- num_neighbors = max(14, int(width_buffer*cutoff_radius**3/volume))
        let wb := 1 + widthBuffer
        let wb := wb * gammaC
        max 14 (pyInt (wb * cutoffRadius.toRat ^ 3 / volume))
      else if numNeighbors = none then (s.numNeighbors).getD 0
      else numNeighbors.getD 0
    let s' :=
      if s.numNeighbors = none then
        { s with numNeighbors := some nn, cutoffRadius := cutoffRadius }
      else s
    let warn := decide (nn > (s'.numNeighbors).getD 0)
    Except.ok (s', nn, warn)

/-- The front part of `Tree._get_distances_and_indices` (neighbors.py:
242-261) when `positions` is given: resolve the neighbor count, then fail
with the infeasible-search `ValueError` when the extended point set is
smaller than the resolved count while `cutoff_radius` is unbounded.
`extLen` stands for `len(self._get_extended_positions())`. -/
def getDistancesIndicesGuard (s : EngState) (numNeighbors : Option ℤ)
    (cutoffRadius : RFloat) (widthBuffer gammaC volume : ℚ) (extLen : ℤ) :
    Except String (EngState × ℤ × Bool) := do
  let (s', k, warn) ← estimateNumNeighbors s numNeighbors cutoffRadius widthBuffer gammaC volume
  if extLen < k ∧ cutoffRadius = RFloat.inf then
    Except.error
      "num_neighbors too large - make width_buffer larger and/or make num_neighbors smaller"
  else
    Except.ok (s', k, warn)

/-- The state effect of `Tree._get_neighborhood` (neighbors.py:508-534):
optionally bump the requested count for a self-excluding search, resolve
it through `_get_distances_and_indices`, then decrement the frozen
`self.num_neighbors` whenever an explicit count was supplied.  Returns the
updated engine state, the count actually searched for, and the warning
flag of the resolution step. -/
def getNeighborhoodState (s : EngState) (numNeighbors : Option ℤ)
    (cutoffRadius : RFloat) (excludeSelf : Bool)
    (widthBuffer gammaC volume : ℚ) (extLen : ℤ) :
    Except String (EngState × ℤ × Bool) := do
  let nn := if excludeSelf then numNeighbors.map (· + 1) else numNeighbors
  let (s', k, warn) ← getDistancesIndicesGuard s nn cutoffRadius widthBuffer gammaC volume extLen
  let s'' :=
    if nn ≠ none then { s' with numNeighbors := (s'.numNeighbors).map (· - 1) }
    else s'
  Except.ok (s'', k, warn)

instance {ε α : Type} [DecidableEq ε] [DecidableEq α] : DecidableEq (Except ε α) := fun a b =>
  match a, b with
  | Except.error x, Except.error y =>
    if h : x = y then Decidable.isTrue (h ▸ rfl)
    else Decidable.isFalse fun hc => h (by injection hc)
  | Except.error _, Except.ok _ => Decidable.isFalse fun hc => Except.noConfusion hc
  | Except.ok _, Except.error _ => Decidable.isFalse fun hc => Except.noConfusion hc
  | Except.ok x, Except.ok y =>
    if h : x = y then Decidable.isTrue (h ▸ rfl)
    else Decidable.isFalse fun hc => h (by injection hc)

/-- A 3-vector of exact coordinates. -/
abbrev Vec3 : Type := Fin 3 → ℚ

/-- The value `np.iinfo(np.int32).max`, the sentinel written into `indices` where
the distance is `np.inf` (neighbors.py:280). -/
def INT32MAX : ℤ := 2147483647

/-- One raw slot returned by the kd-tree query
(`self._tree.query(...)`, an external scipy call): a distance and an index
into the extended positions. -/
structure RawNeighbor where
  dist : RFloat
  extIndex : ℕ
deriving DecidableEq, Repr

/-- The index remap of `Tree._get_distances_and_indices`
(neighbors.py:278-280):
`indices[distances<np.inf] = self._get_wrapped_indices()[indices[...]]`,
`indices[distances==np.inf] = np.iinfo(np.int32).max`. -/
def remapIndex (wrappedIndices : ℕ → ℤ) (r : RawNeighbor) : ℤ :=
  if r.dist.ltb RFloat.inf then wrappedIndices r.extIndex else INT32MAX

/-- The vector reconstruction of `Tree._get_vectors` (neighbors.py:402-409):
`vectors -= wrapped_positions; vectors[distances<np.inf] +=
extended_positions[extended_indices]; vectors[distances==np.inf] = inf`. -/
def neighborVec (extendedPositions : ℕ → Vec3) (wrappedPos : Vec3) (r : RawNeighbor) :
    Fin 3 → RFloat :=
  if r.dist.ltb RFloat.inf then
    fun j => RFloat.fin (extendedPositions r.extIndex j - wrappedPos j)
  else fun _ => RFloat.inf

/-- One populated row of the neighbor table: per raw slot the stored
distance, the remapped original-atom index, and the reconstructed
vector. -/
def processedRow (wrappedIndices : ℕ → ℤ) (extendedPositions : ℕ → Vec3)
    (wrappedPos : Vec3) (raw : List RawNeighbor) :
    List (RFloat × ℤ × (Fin 3 → RFloat)) :=
  raw.map fun r =>
    (r.dist, remapIndex wrappedIndices r, neighborVec extendedPositions wrappedPos r)

/-- The `np.min` over the filled distance table (the table always holds at
least one entry when these methods are reached; for the all-`inf`
degenerate table the fold returns `inf`, matching `np.min`). -/
def npMinTable (distances : List (List RFloat)) : RFloat :=
  (distances.flatten).foldl RFloat.minb RFloat.inf

/-- The `distance_threshold` resolution of `Neighbors.cluster_by_vecs`
(neighbors.py:850-851): `if distance_threshold is None and n_clusters is
None: distance_threshold = np.min(self._distances)`. -/
def clusterByVecsThreshold (distanceThreshold : Option RFloat) (nClusters : Option ℤ)
    (distances : List (List RFloat)) : Option RFloat :=
  if distanceThreshold = none ∧ nClusters = none then some (npMinTable distances)
  else distanceThreshold

/-- The `distance_threshold` resolution of `Neighbors.cluster_by_distances`
(neighbors.py:897-898): `if distance_threshold is None:
distance_threshold = 0.1*np.min(self._distances)` — note the missing
`n_clusters is None` guard. -/
def clusterByDistancesThreshold (distanceThreshold : Option RFloat) (nClusters : Option ℤ)
    (distances : List (List RFloat)) : Option RFloat :=
  if distanceThreshold = none then some (RFloat.mulQ (1/10) (npMinTable distances))
  else distanceThreshold

/-- The clustering caches of a `Neighbors` instance.  `clusterDist` is the
attribute `_cluster_dist` written by `cluster_by_distances` and read by
`get_local_shells`/`get_global_shells`; `clusterVecs` is `_cluster_vecs`;
`clusterDistances` is the attribute `_cluster_distances` that
`reset_clusters` writes (it is read nowhere).  The opaque fitted models
are identified by an integer tag. -/
structure ClusterCaches where
  clusterVecs : Option ℤ
  clusterDist : Option ℤ
  clusterDistances : Option ℤ
deriving DecidableEq, Repr

/-- The cache effect of `Neighbors.cluster_by_distances`
(neighbors.py:866-920): store the fitted model (external sklearn fit,
passed in as `model`) in `self._cluster_dist`. -/
def clusterByDistancesCache (s : ClusterCaches) (model : ℤ) : ClusterCaches :=
  { s with clusterDist := some model }

/-- Embeds `Neighbors.reset_clusters` (neighbors.py:922-933): `if vecs:
self._cluster_vecs = None`; `if distances: self._cluster_distances =
None`. -/
def resetClusters (s : ClusterCaches) (vecs distances : Bool) : ClusterCaches :=
  { s with
    clusterVecs := if vecs then none else s.clusterVecs,
    clusterDistances := if distances then none else s.clusterDistances }

/-- The clustering dispatch of `Neighbors.get_local_shells` with
`cluster_by_distances=True` (neighbors.py:672-674): the agglomerative
clustering re-runs iff `self._cluster_dist is None`. -/
def localShellsRerunsClustering (s : ClusterCaches) (clusterByDistances : Bool) : Bool :=
  clusterByDistances && (s.clusterDist).isNone

/-- One row of `np.sum(sph_harm(m, l, theta, phi)*within_cutoff, axis=-1)`
(neighbors.py:581-583): the sum over all `K` slots of the external
spherical-harmonic value `Y j` times the within-cutoff indicator, starting
at slot `j`.  (At masked slots the code evaluates `sph_harm` at the zeroed
angles and multiplies by `False`, contributing exactly `0`.) -/
def maskedHarmonicSum (Y : ℕ → ℚ) (cutoffRadius : RFloat) : ℕ → List RFloat → ℚ
  | _, [] => 0
  | j, d :: rest =>
    (if d.ltb cutoffRadius then Y j else 0) + maskedHarmonicSum Y cutoffRadius (j + 1) rest

/-- One row of `np.sum(within_cutoff, axis=-1)`: the number of slots whose
distance is strictly below the cutoff. -/
def maskedCount (cutoffRadius : RFloat) : List RFloat → ℕ
  | [] => 0
  | d :: rest => (if d.ltb cutoffRadius then 1 else 0) + maskedCount cutoffRadius rest

/-- The per-atom average of `Tree.get_spherical_harmonics`: masked sum
divided by the within-cutoff count. -/
def sphRow (Y : ℕ → ℚ) (cutoffRadius : RFloat) (row : List RFloat) : ℚ :=
  maskedHarmonicSum Y cutoffRadius 0 row / (maskedCount cutoffRadius row : ℚ)

/-- All rows of the average, row `i` using the external harmonic values
`Y i ·`. -/
def sphRows (Y : ℕ → ℕ → ℚ) (cutoffRadius : RFloat) : ℕ → List (List RFloat) → List ℚ
  | _, [] => []
  | i, row :: rest => sphRow (Y i) cutoffRadius row :: sphRows Y cutoffRadius (i + 1) rest

/-- Embeds `Tree.get_spherical_harmonics` (neighbors.py:546-583):
`within_cutoff = self._distances < cutoff_radius`; raise `ValueError` when
`np.any(np.all(~within_cutoff, axis=-1))`; otherwise return
`np.sum(sph_harm(...)*within_cutoff, axis=-1)/np.sum(within_cutoff,
axis=-1)`.  `Y i j` stands for the external `scipy.special.sph_harm`
value at row `i`, slot `j` (computed from the neighbor vectors and the
optional rotation, all outside this repository). -/
def getSphericalHarmonics (Y : ℕ → ℕ → ℚ) (cutoffRadius : RFloat)
    (distances : List (List RFloat)) : Except String (List ℚ) :=
  if distances.any (fun row => row.all (fun d => !(d.ltb cutoffRadius))) then
    Except.error "cutoff_radius too small - some atoms have no neighbors"
  else
    Except.ok (sphRows Y cutoffRadius 0 distances)

/-- The within-cutoff slots of a row, with their slot numbers, starting at
slot `j` — the reference form used to state what the masked sum is. -/
def withinSlotSum (Y : ℕ → ℚ) (cutoffRadius : RFloat) (j : ℕ) (row : List RFloat) : ℚ :=
  (((List.enumFrom j row).filter (fun p => p.2.ltb cutoffRadius)).map (fun p => Y p.1)).sum

/-- Embeds `Neighbors.__probe_cluster` (neighbors.py:969-985): for each neighbor
id in `nbrs`, if it is unvisited (`cluster nbrId = 0`) and belongs to
`idList`, label it `cCount` and recurse into its own neighbor list.  The
Python function is genuinely recursive; the embedding adds fuel (any
amount at least the subset size makes it total) and instruments the
result with the recursion depth reached: descending into a neighbor costs
one level, iterating over the remaining `nbrs` of the same call does
not. -/
def probeCluster (indices : ℕ → List ℕ) (idList : List ℕ) :
    ℕ → ℕ → List ℕ → (ℕ → ℕ) → ((ℕ → ℕ) × ℕ)
  | 0, _, _, cluster => (cluster, 0)
  | _ + 1, _, [], cluster => (cluster, 0)
  | fuel + 1, cCount, nbrId :: rest, cluster =>
    if cluster nbrId = 0 ∧ nbrId ∈ idList then
      let cluster1 : ℕ → ℕ := fun m => if m = nbrId then cCount else cluster m
      let res := probeCluster indices idList fuel cCount (indices nbrId) cluster1
      let res2 := probeCluster indices idList fuel cCount rest res.1
      (res2.1, max (res.2 + 1) res2.2)
    else probeCluster indices idList fuel cCount rest cluster

/-- The seed loop of `Neighbors.cluster_analysis` (neighbors.py:947-957):
`for ia in id_list: if cluster[ia] == 0: cluster[ia] = c_count;
probe_cluster(c_count, indices[ia], id_list); c_count += 1`.  Carries the
label map, the running cluster counter and the maximal probe recursion
depth seen so far. -/
def clusterLoop (indices : ℕ → List ℕ) (idList : List ℕ) (fuel : ℕ) :
    List ℕ → (ℕ → ℕ) → ℕ → ℕ → ((ℕ → ℕ) × ℕ × ℕ)
  | [], cluster, cCount, depth => (cluster, cCount, depth)
  | ia :: rest, cluster, cCount, depth =>
    if cluster ia = 0 then
      let cluster1 : ℕ → ℕ := fun m => if m = ia then cCount else cluster m
      let res := probeCluster indices idList fuel cCount (indices ia) cluster1
      clusterLoop indices idList fuel rest res.1 (cCount + 1) (max depth res.2)
    else clusterLoop indices idList fuel rest cluster cCount depth

/-- Embeds `Neighbors.cluster_analysis` (neighbors.py:935-967): start from the
all-zero label array (`self._cluster = [0]*len(structure)`) and run the
seed loop over `id_list`.  Returns the labels, the final counter and the
maximal recursion depth of the probe calls. -/
def clusterAnalysis (indices : ℕ → List ℕ) (idList : List ℕ) (fuel : ℕ) :
    (ℕ → ℕ) × ℕ × ℕ :=
  clusterLoop indices idList fuel idList (fun _ => 0) 1 0

/-- A linear chain of `n` atoms where atom `i` lists atom `i+1` as its
only neighbor — the family on which the probe recursion depth grows with
the atom count. -/
def chainIndices (n : ℕ) (i : ℕ) : List ℕ := if i + 1 < n then [i + 1] else []

/-- A 3×3 matrix of exact entries; row `i` of the cell matrix is lattice
vector `i`, as in the numpy convention used by `neighbors.py`. -/
abbrev Mat3 : Type := Fin 3 → Fin 3 → ℚ

/-- Computes `np.dot(v, m)` for a row vector `v` and a 3×3 matrix `m`. -/
def vecMulMat (v : Vec3) (m : Mat3) : Vec3 := fun j => ∑ i, v i * m i j

/-- Embeds `Tree._get_wrapped_positions` (neighbors.py:231-240) for one query
position: when `self.wrap_positions` is set, fold the position into the
primary cell along the periodic axes only:
`x_scale = np.dot(x, np.linalg.inv(cell)) + distance_buffer`;
`x[..., pbc] -= np.dot(np.floor(x_scale), cell)[..., pbc]`.
`cellInv` stands for the externally computed `np.linalg.inv(cell)`, and
`distanceBuffer` for the `1.0e-12` fractional buffer. -/
def wrapPosition (wrapFlag : Bool) (pbc : Fin 3 → Bool) (cell cellInv : Mat3)
    (distanceBuffer : ℚ) (x : Vec3) : Vec3 :=
  if wrapFlag = false then x
  else
    let xScale : Vec3 := fun i => vecMulMat x cellInv i + distanceBuffer
    fun j =>
      if pbc j then x j - vecMulMat (fun i => ((⌊xScale i⌋ : ℤ) : ℚ)) cell j else x j

/-- The positional query pipeline of the `Tree` engine for one query
point: wrap the position (`_get_wrapped_positions`), run the external
kd-tree query on the wrapped position, then post-process raw slots into
distances and remapped indices (`_get_distances_and_indices`) and
reconstructed vectors (`_get_vectors`). -/
def queryNeighborhood (wrapFlag : Bool) (pbc : Fin 3 → Bool) (cell cellInv : Mat3)
    (distanceBuffer : ℚ) (treeQuery : Vec3 → List RawNeighbor)
    (wrappedIndices : ℕ → ℤ) (extendedPositions : ℕ → Vec3) (x : Vec3) :
    List RFloat × List ℤ × List (Fin 3 → RFloat) :=
  let w := wrapPosition wrapFlag pbc cell cellInv distanceBuffer x
  let raw := treeQuery w
  (raw.map (fun r => r.dist), raw.map (remapIndex wrappedIndices),
   raw.map (neighborVec extendedPositions w))

/-- The cubic cell of edge 2 used in the C6 concrete instance. -/
def cexCell : Mat3 := ![![2, 0, 0], ![0, 2, 0], ![0, 0, 2]]

/-- Its inverse (entries 1/2 on the diagonal). -/
def cexCellInv : Mat3 := ![![1/2, 0, 0], ![0, 1/2, 0], ![0, 0, 1/2]]

/-- The `1.0e-12` fractional buffer as an exact rational. -/
def cexBuffer : ℚ := 1/1000000000000

/-- The kd-tree of a single extended point at the origin: every query
returns that point; at the wrapped query position `(1,0,0)` used below
its reported distance is `1`, matching the true Euclidean distance. -/
def cexTreeQuery : Vec3 → List RawNeighbor := fun _ => [⟨RFloat.fin 1, 0⟩]

/-- The single extended position (the origin). -/
def cexExtPos : ℕ → Vec3 := fun _ _ => 0

/-- The single atom maps to original index 0. -/
def cexWrappedIdx : ℕ → ℤ := fun _ => 0

/-- The query position `(1,0,0)`. -/
def cexX : Vec3 := ![1, 0, 0]

/-- The lattice vector `(2,0,0)` (row 0 of the cell). -/
def cexC : Vec3 := ![2, 0, 0]

/-- The vector of the first query shifted by `-c`, the relation the
claim asserts between the two queries' vectors. -/
def shiftVecBy (c : Vec3) (v : Fin 3 → RFloat) : Fin 3 → RFloat := fun j =>
  match v j with
  | RFloat.fin q => RFloat.fin (q - c j)
  | RFloat.inf => RFloat.inf

/-- Read a heap node (`numpy` array contents are opaque, type `V`). -/
def readStore {V : Type} [Inhabited V] (store : List V) (i : ℕ) : V := store.getD i default

/-- Allocate a fresh heap node holding `v`; returns its id. -/
def allocStore {V : Type} (store : List V) (v : V) : ℕ × List V := (store.length, store ++ [v])

/-- In-place write (`arr[mask] = ...`) to an existing heap node. -/
def writeStore {V : Type} (store : List V) (i : ℕ) (v : V) : List V := store.set i v

/-- The array-valued attributes of a `Tree` object as heap node ids, plus
its scalar attributes.  Python attribute rebinding (`self._distances =
...`) is pure record update; only `writeStore` mutates shared heap
contents. -/
structure TreeObj where
  distancesId : ℕ
  indicesId : ℕ
  vecsId : Option ℕ
  extendedIndicesId : ℕ
  positionsId : ℕ
  extendedPositionsId : Option ℕ
  wrappedIndicesId : Option ℕ
  numNeighbors : Option ℤ
  cutoffRadius : RFloat
  wrapPositionsFlag : Bool
deriving DecidableEq, Repr

/-- Embeds `Tree.copy` (neighbors.py:114-127): fresh copies of `_distances`,
`_indices` and `_positions` (`.copy()`), shared references to
`_extended_positions`, `_wrapped_indices`, `_extended_indices` and the
kd-tree, copied scalars; the fresh `Tree.__init__` leaves `_vecs =
None`. -/
def treeCopy {V : Type} [Inhabited V] (t : TreeObj) (store : List V) : TreeObj × List V :=
  let a1 := allocStore store (readStore store t.distancesId)
  let a2 := allocStore a1.2 (readStore a1.2 t.indicesId)
  let a3 := allocStore a2.2 (readStore a2.2 t.positionsId)
  ({ t with distancesId := a1.1, indicesId := a2.1, positionsId := a3.1, vecsId := none }, a3.2)

/-- The heap effect of the array part of `Tree._get_distances_and_indices`
(neighbors.py:262-280): wrap the query positions (a fresh array when
`wrap_positions` is on, `np.asarray` aliasing otherwise), run the
external kd-tree query (fresh output arrays), reshape both (fresh
arrays), take `indices.copy()` for `_extended_indices`, then remap the
indices with two in-place masked writes on the freshly reshaped indices
array.  Returns the final store and the ids of the distances array, the
indices array and the extended-indices copy.  The external computations
(`wrapFn`, `queryFn`, `reshapeFn`, the two remap steps) are opaque
content transformers — only the allocation/write discipline is the code
under test here. -/
def queryArraysHeap {V : Type} [Inhabited V] (store : List V) (posId : ℕ) (wrapFlag : Bool)
    (wrapFn reshapeFn remapWrappedFn remapSentinelFn : V → V) (queryFn : V → V × V) :
    List V × ℕ × ℕ × ℕ :=
  let pw := if wrapFlag then allocStore store (wrapFn (readStore store posId)) else (posId, store)
  let q := queryFn (readStore pw.2 pw.1)
  let ad := allocStore pw.2 q.1
  let ai := allocStore ad.2 q.2
  let ad1 := allocStore ai.2 (reshapeFn (readStore ai.2 ad.1))
  let ai1 := allocStore ad1.2 (reshapeFn (readStore ad1.2 ai.1))
  let ae := allocStore ai1.2 (readStore ai1.2 ai1.1)
  let sW := writeStore ae.2 ai1.1 (remapWrappedFn (readStore ae.2 ai1.1))
  let sW2 := writeStore sW ai1.1 (remapSentinelFn (readStore sW ai1.1))
  (sW2, ad1.1, ai1.1, ae.1)

/-- Embeds `Tree._get_distances_and_indices` with positions given, as a heap
computation: resolve the neighbor count, apply the infeasible-search
guard, then run the array pipeline and rebind `self._extended_indices`
and the scalar state on the object. -/
def getDistancesIndicesHeap {V : Type} [Inhabited V] (t : TreeObj) (store : List V)
    (posId : ℕ) (wrapFn reshapeFn remapWrappedFn remapSentinelFn : V → V)
    (queryFn : V → V × V) (numNeighbors : Option ℤ) (cutoffRadius : RFloat)
    (widthBuffer gammaC volume : ℚ) (extLen : ℤ) :
    Except String (TreeObj × List V × ℕ × ℕ) :=
  match estimateNumNeighbors ⟨t.numNeighbors, t.cutoffRadius⟩ numNeighbors cutoffRadius
      widthBuffer gammaC volume with
  | Except.error e => Except.error e
  | Except.ok (s', _k, _warn) =>
    if extLen < _k ∧ cutoffRadius = RFloat.inf then
      Except.error
        "num_neighbors too large - make width_buffer larger and/or make num_neighbors smaller"
    else
      let qa := queryArraysHeap store posId t.wrapPositionsFlag wrapFn reshapeFn
        remapWrappedFn remapSentinelFn queryFn
      Except.ok
        ({ t with
            numNeighbors := s'.numNeighbors
            cutoffRadius := s'.cutoffRadius
            extendedIndicesId := qa.2.2.2 },
         qa.1, qa.2.1, qa.2.2.1)

/-- Embeds `Tree._get_neighborhood` (neighbors.py:508-534) as a heap computation:
run the resolution on the object (here the copy), decrement the frozen
count when an explicit one was given, then rebind `self._distances`,
`self._indices`, `self._extended_indices` to the column-sliced arrays
(numpy views; no in-place writes follow, so they are modelled as fresh
nodes with the sliced content) and `self._positions` to the caller's
positions argument. -/
def getNeighborhoodHeapPriv {V : Type} [Inhabited V] (t : TreeObj) (store : List V)
    (posId : ℕ) (wrapFn reshapeFn remapWrappedFn remapSentinelFn sliceFn : V → V)
    (queryFn : V → V × V) (numNeighbors : Option ℤ) (cutoffRadius : RFloat)
    (widthBuffer gammaC volume : ℚ) (extLen : ℤ) (excludeSelf : Bool) :
    Except String (TreeObj × List V) :=
  let nn := if excludeSelf then numNeighbors.map (· + 1) else numNeighbors
  match getDistancesIndicesHeap t store posId wrapFn reshapeFn remapWrappedFn remapSentinelFn
      queryFn nn cutoffRadius widthBuffer gammaC volume extLen with
  | Except.error e => Except.error e
  | Except.ok (t1, s1, dId, iId) =>
    let t2 := if nn ≠ none then { t1 with numNeighbors := (t1.numNeighbors).map (· - 1) }
      else t1
    let b1 := allocStore s1 (sliceFn (readStore s1 dId))
    let b2 := allocStore b1.2 (sliceFn (readStore b1.2 iId))
    let b3 := allocStore b2.2 (sliceFn (readStore b2.2 t1.extendedIndicesId))
    Except.ok
      ({ t2 with
          distancesId := b1.1
          indicesId := b2.1
          extendedIndicesId := b3.1
          positionsId := posId },
       b3.2)

/-- Embeds `Tree.get_neighborhood` (neighbors.py:474-506): copy the engine and
run `_get_neighborhood` with `exclude_self=False` on the copy. -/
def getNeighborhoodHeap {V : Type} [Inhabited V] (t : TreeObj) (store : List V)
    (posId : ℕ) (wrapFn reshapeFn remapWrappedFn remapSentinelFn sliceFn : V → V)
    (queryFn : V → V × V) (numNeighbors : Option ℤ) (cutoffRadius : RFloat)
    (widthBuffer gammaC volume : ℚ) (extLen : ℤ) : Except String (TreeObj × List V) :=
  let cp := treeCopy t store
  getNeighborhoodHeapPriv cp.1 cp.2 posId wrapFn reshapeFn remapWrappedFn remapSentinelFn
    sliceFn queryFn numNeighbors cutoffRadius widthBuffer gammaC volume extLen false

/-- The frame property: `s` extends `s₀` and agrees with it on every node
that already existed. -/
def storePreserved {V : Type} (s₀ s : List V) : Prop :=
  s₀.length ≤ s.length ∧ ∀ i, i < s₀.length → s[i]? = s₀[i]?

/-- C4: whenever the resolved neighbor count exceeds the number of
extended points while `cutoff_radius` is unbounded, the query fails
synchronously with the infeasible-search `ValueError` instead of
returning a partial result. -/
theorem infeasible_search_raises (s s' : EngState) (numNeighbors : Option ℤ)
    (widthBuffer gammaC volume : ℚ) (extLen k : ℤ) (warn : Bool)
    (hres : estimateNumNeighbors s numNeighbors RFloat.inf widthBuffer gammaC volume
      = Except.ok (s', k, warn))
    (hlt : extLen < k) :
    getDistancesIndicesGuard s numNeighbors RFloat.inf widthBuffer gammaC volume extLen
      = Except.error
        "num_neighbors too large - make width_buffer larger and/or make num_neighbors smaller" := by
  simp only [getDistancesIndicesGuard, hres, bind, Except.bind]
  simp [hlt]

/-- C4 witness: the spec's concrete scenario — a non-periodic structure
with 5 atoms (extended points = the 5 original positions), queried with
`num_neighbors=10` and infinite cutoff, raises the infeasible-search
error. -/
theorem infeasible_search_raises_witness :
    getDistancesIndicesGuard ⟨none, RFloat.inf⟩ (some 10) RFloat.inf (6/5) 0 1 5
      = Except.error
        "num_neighbors too large - make width_buffer larger and/or make num_neighbors smaller" :=
  infeasible_search_raises ⟨none, RFloat.inf⟩ ⟨some 10, RFloat.inf⟩ (some 10)
    (6/5) 0 1 5 10 false rfl (by decide)

/-- C7: when `num_neighbors` is unspecified, no prior value is frozen and
`cutoff_radius` is finite, the resolved count is
`max(14, floor((1+width_buffer)·C·cutoff_radius³/volume_per_atom))` where
`gammaC` is the constant `C = 8·Γ(1+1/p)³/Γ(1+3/p)` evaluated by the
external `scipy.special.gamma` for the engine's norm order `p`. -/
theorem estimate_num_neighbors_density (s : EngState) (r widthBuffer gammaC volume : ℚ)
    (hfrozen : s.numNeighbors = none)
    (hpos : 0 ≤ (1 + widthBuffer) * gammaC * (r ^ 3 / volume)) :
    estimateNumNeighbors s none (RFloat.fin r) widthBuffer gammaC volume =
      Except.ok
        ({ numNeighbors := some (max 14 ⌊(1 + widthBuffer) * gammaC * (r ^ 3 / volume)⌋),
           cutoffRadius := RFloat.fin r },
         max 14 ⌊(1 + widthBuffer) * gammaC * (r ^ 3 / volume)⌋, false) := by
  have harith : (1 + widthBuffer) * gammaC * (RFloat.fin r).toRat ^ 3 / volume
      = (1 + widthBuffer) * gammaC * (r ^ 3 / volume) := by
    simp [RFloat.toRat]; ring
  simp only [estimateNumNeighbors, hfrozen, pyInt, harith, hpos, if_true, and_true, and_self,
    reduceCtorEq, false_and, if_false, Option.getD_some]
  simp

/-- C7 witness: a concrete instance — `width_buffer = 1/5`, `C = 4`,
`cutoff_radius = 2`, `volume = 1` resolves to
`max(14, floor(1.2·4·8)) = 38` and freezes it. -/
theorem estimate_num_neighbors_density_witness :
    estimateNumNeighbors ⟨none, RFloat.inf⟩ none (RFloat.fin 2) (1/5) 4 1 =
      Except.ok (⟨some 38, RFloat.fin 2⟩, 38, false) := by
  have h := estimate_num_neighbors_density ⟨none, RFloat.inf⟩ 2 (1/5) 4 1 rfl (by norm_num)
  refine h.trans ?_
  norm_num [EngState.mk.injEq]

/-- C5 counterexample: on a fresh engine, `Tree.get_neighborhood` (which
runs `_get_neighborhood` with `exclude_self=False`) with explicit
`num_neighbors = 12` leaves the engine's stored `num_neighbors` at `11`,
not `12` — `_get_neighborhood` decrements the frozen value after the
resolution. -/
theorem get_neighborhood_stored_count_counterexample :
    getNeighborhoodState ⟨none, RFloat.inf⟩ (some 12) RFloat.inf false (6/5) 0 1 20
      = Except.ok (⟨some 11, RFloat.inf⟩, 12, false)
    ∧ some (11 : ℤ) ≠ some 12 := by
  constructor
  · decide
  · decide

/-- C5 (amended): the first successful resolution freezes
`(num_neighbors, cutoff_radius)` on the engine and emits no warning; the
stored count right after the resolution equals the explicit request `k`,
but a `_get_neighborhood` query then decrements it (to `k-1` when
`exclude_self=False` as in `Tree.get_neighborhood`, back to `k` when
`exclude_self=True` since the request was first bumped to `k+1`); every
later call resolving a count strictly larger than the stored value is
still honored and emits the non-fatal "larger search area" warning. -/
theorem freeze_and_warn_behavior :
    (∀ (s : EngState) (k : ℤ) (cut : RFloat) (wb gC vol : ℚ), s.numNeighbors = none →
       estimateNumNeighbors s (some k) cut wb gC vol
         = Except.ok (⟨some k, cut⟩, k, false))
    ∧ (∀ (s : EngState) (v k' : ℤ) (cut : RFloat) (wb gC vol : ℚ),
         s.numNeighbors = some v → v < k' →
         estimateNumNeighbors s (some k') cut wb gC vol = Except.ok (s, k', true))
    ∧ (∀ (k : ℤ) (wb gC vol : ℚ) (extLen : ℤ), ¬ extLen < k →
         getNeighborhoodState ⟨none, RFloat.inf⟩ (some k) RFloat.inf false wb gC vol extLen
           = Except.ok (⟨some (k - 1), RFloat.inf⟩, k, false))
    ∧ (∀ (k : ℤ) (wb gC vol : ℚ) (extLen : ℤ), ¬ extLen < k + 1 →
         getNeighborhoodState ⟨none, RFloat.inf⟩ (some k) RFloat.inf true wb gC vol extLen
           = Except.ok (⟨some k, RFloat.inf⟩, k + 1, false)) := by
  refine ⟨?_, ?_, ?_, ?_⟩
  · intro s k cut wb gC vol h
    simp [estimateNumNeighbors, h]
  · intro s v k' cut wb gC vol h hlt
    simp [estimateNumNeighbors, h, hlt]
  · intro k wb gC vol extLen h
    simp only [getNeighborhoodState, getDistancesIndicesGuard, estimateNumNeighbors, bind,
      Except.bind]
    simp [h]
  · intro k wb gC vol extLen h
    simp only [getNeighborhoodState, getDistancesIndicesGuard, estimateNumNeighbors, bind,
      Except.bind]
    simp [h]

/-- C5 witness: concrete runs of each conjunct — freezing at `8` without
warning, honoring a later larger request `12` with the warning, and the
post-query stored values `11` (`exclude_self=False`, request `12`) and
`12` (`exclude_self=True`, request `12`). -/
theorem freeze_and_warn_behavior_witness :
    estimateNumNeighbors ⟨none, RFloat.inf⟩ (some 8) (RFloat.fin 3) (6/5) 0 1
        = Except.ok (⟨some 8, RFloat.fin 3⟩, 8, false)
    ∧ estimateNumNeighbors ⟨some 8, RFloat.fin 3⟩ (some 12) RFloat.inf (6/5) 0 1
        = Except.ok (⟨some 8, RFloat.fin 3⟩, 12, true)
    ∧ getNeighborhoodState ⟨none, RFloat.inf⟩ (some 12) RFloat.inf false (6/5) 0 1 20
        = Except.ok (⟨some 11, RFloat.inf⟩, 12, false)
    ∧ getNeighborhoodState ⟨none, RFloat.inf⟩ (some 12) RFloat.inf true (6/5) 0 1 20
        = Except.ok (⟨some 12, RFloat.inf⟩, 13, false) :=
  ⟨freeze_and_warn_behavior.1 ⟨none, RFloat.inf⟩ 8 (RFloat.fin 3) (6/5) 0 1 rfl,
   freeze_and_warn_behavior.2.1 ⟨some 8, RFloat.fin 3⟩ 8 12 RFloat.inf (6/5) 0 1 rfl (by decide),
   freeze_and_warn_behavior.2.2.1 12 (6/5) 0 1 20 (by decide),
   freeze_and_warn_behavior.2.2.2 12 (6/5) 0 1 20 (by decide)⟩

/-- C3: in every populated row, at every slot the three sentinel
encodings co-occur: the stored distance is `np.inf` iff the stored index
is the sentinel `INT32MAX` iff the reconstructed vector is
`(inf, inf, inf)` — given that the wrapped indices are valid atom ids
below the atom count `N` and `N` does not exceed the sentinel. -/
theorem sentinel_consistency (wrappedIndices : ℕ → ℤ) (extendedPositions : ℕ → Vec3)
    (wrappedPos : Vec3) (raw : List RawNeighbor) (N : ℤ)
    (hwi : ∀ e, 0 ≤ wrappedIndices e ∧ wrappedIndices e < N) (hN : N ≤ INT32MAX) :
    ∀ entry ∈ processedRow wrappedIndices extendedPositions wrappedPos raw,
      (entry.1 = RFloat.inf ↔ entry.2.1 = INT32MAX)
      ∧ (entry.1 = RFloat.inf ↔ entry.2.2 = fun _ => RFloat.inf) := by
  intro entry hmem
  simp only [processedRow, List.mem_map] at hmem
  obtain ⟨r, -, rfl⟩ := hmem
  obtain ⟨d, e⟩ := r
  have hN' : N ≤ 2147483647 := hN
  cases d with
  | inf => simp [remapIndex, neighborVec, RFloat.ltb]
  | fin q =>
    have h1 : wrappedIndices e ≠ INT32MAX := by
      have h0 := (hwi e).2
      simp only [INT32MAX]
      omega
    have h2 : (fun j => RFloat.fin (extendedPositions e j - wrappedPos j))
        ≠ (fun _ : Fin 3 => RFloat.inf) := by
      intro h
      exact RFloat.noConfusion (congrFun h 0)
    simp [remapIndex, neighborVec, RFloat.ltb, h1, h2]

/-- C3 witness: a two-slot row over a 2-atom structure — one finite slot
(distance 1, extended index 3 mapping back to atom 1) and one sentinel
slot. -/
theorem sentinel_consistency_witness :
    ((RFloat.fin 1 = RFloat.inf
        ↔ remapIndex (fun e => if e < 2 then (e : ℤ) else 1) ⟨RFloat.fin 1, 3⟩ = INT32MAX)
      ∧ (RFloat.fin 1 = RFloat.inf
        ↔ neighborVec (fun _ _ => 0) (fun _ => 0) ⟨RFloat.fin 1, 3⟩ = fun _ => RFloat.inf))
    ∧ ((RFloat.inf = RFloat.inf
        ↔ remapIndex (fun e => if e < 2 then (e : ℤ) else 1) ⟨RFloat.inf, 5⟩ = INT32MAX)
      ∧ (RFloat.inf = RFloat.inf
        ↔ neighborVec (fun _ _ => 0) (fun _ => 0) ⟨RFloat.inf, 5⟩ = fun _ => RFloat.inf)) := by
  have h := sentinel_consistency (fun e => if e < 2 then (e : ℤ) else 1) (fun _ _ => 0)
    (fun _ => 0) [⟨RFloat.fin 1, 3⟩, ⟨RFloat.inf, 5⟩] 2
    (fun e => by dsimp only; split <;> omega) (by decide)
  exact ⟨h (RFloat.fin 1,
        remapIndex (fun e => if e < 2 then (e : ℤ) else 1) ⟨RFloat.fin 1, 3⟩,
        neighborVec (fun _ _ => 0) (fun _ => 0) ⟨RFloat.fin 1, 3⟩)
      (by simp [processedRow]),
    h (RFloat.inf,
        remapIndex (fun e => if e < 2 then (e : ℤ) else 1) ⟨RFloat.inf, 5⟩,
        neighborVec (fun _ _ => 0) (fun _ => 0) ⟨RFloat.inf, 5⟩)
      (by simp [processedRow])⟩

/-- C8 evaluation at the failing input: on the table
`[[1, 2, inf]]` with `n_clusters = 2` and no caller threshold,
`cluster_by_vecs` injects no default threshold, but
`cluster_by_distances` still injects `0.1·min = 1/10` — both
`distance_threshold` and `n_clusters` are then handed to
`AgglomerativeClustering`, which rejects having both set, so the
cluster-count-only run the claim describes never happens. -/
theorem cluster_by_distances_threshold_bug :
    clusterByVecsThreshold none (some 2) [[RFloat.fin 1, RFloat.fin 2, RFloat.inf]] = none
    ∧ clusterByDistancesThreshold none (some 2) [[RFloat.fin 1, RFloat.fin 2, RFloat.inf]]
        = some (RFloat.fin (1/10))
    ∧ some (RFloat.fin (1/10)) ≠ (none : Option RFloat) := by
  refine ⟨by decide, ?_, by decide⟩
  norm_num [clusterByDistancesThreshold, npMinTable, RFloat.mulQ, RFloat.minb, List.foldl]

/-- C1 evaluation at the failing input: compute a distance cluster model
(cached in `_cluster_dist`), call `reset_clusters(distances=True)`, and
the cached model is still there — `reset_clusters` clears the unused
attribute `_cluster_distances` instead — so a subsequent
`get_local_shells(cluster_by_distances=True)` reuses the stale model
instead of re-running the clustering. -/
theorem reset_clusters_distance_cache_bug :
    (resetClusters (clusterByDistancesCache ⟨none, none, none⟩ 7) true true).clusterDist
        = some 7
    ∧ localShellsRerunsClustering
        (resetClusters (clusterByDistancesCache ⟨none, none, none⟩ 7) true true) true = false := by
  decide

theorem maskedHarmonicSum_eq_withinSlotSum (Y : ℕ → ℚ) (cutoffRadius : RFloat) :
    ∀ (row : List RFloat) (j : ℕ),
      maskedHarmonicSum Y cutoffRadius j row = withinSlotSum Y cutoffRadius j row := by
  intro row
  induction row with
  | nil => intro j; simp [maskedHarmonicSum, withinSlotSum]
  | cons d rest ih =>
    intro j
    simp only [maskedHarmonicSum, withinSlotSum, List.enumFrom, List.filter]
    cases hd : d.ltb cutoffRadius with
    | true => simp [hd, ih j.succ, withinSlotSum]
    | false => simp [hd, ih j.succ, withinSlotSum]

theorem maskedCount_eq_filter_length (cutoffRadius : RFloat) :
    ∀ row : List RFloat,
      maskedCount cutoffRadius row = (row.filter (fun d => d.ltb cutoffRadius)).length := by
  intro row
  induction row with
  | nil => simp [maskedCount]
  | cons d rest ih =>
    simp only [maskedCount, List.filter, ih]
    cases hd : d.ltb cutoffRadius <;> simp <;> omega

theorem sphRows_getElem (Y : ℕ → ℕ → ℚ) (cutoffRadius : RFloat) :
    ∀ (ds : List (List RFloat)) (n i : ℕ),
      (sphRows Y cutoffRadius n ds).get? i
        = (ds.get? i).map (fun row => sphRow (Y (n + i)) cutoffRadius row) := by
  intro ds
  induction ds with
  | nil => intro n i; simp [sphRows]
  | cons row rest ih =>
    intro n i
    cases i with
    | zero => simp [sphRows]
    | succ i' =>
      simp only [sphRows, List.get?]
      have hn : n + 1 + i' = n + (i' + 1) := by omega
      rw [ih (n + 1) i', hn]

/-- C9: `get_spherical_harmonics` raises the degenerate-geometry
`ValueError` (it never returns a value, in particular never NaN) exactly
when some atom has zero neighbors with distance strictly below the
cutoff; otherwise, atom `i`'s value is the sum of the harmonic values over
its within-cutoff slots, divided by the count of those within-cutoff
slots — not by the slot capacity. -/
theorem spherical_harmonics_error_and_average (Y : ℕ → ℕ → ℚ) (cutoffRadius : RFloat)
    (distances : List (List RFloat)) :
    ((∃ row ∈ distances, ∀ d ∈ row, d.ltb cutoffRadius = false) →
      getSphericalHarmonics Y cutoffRadius distances
        = Except.error "cutoff_radius too small - some atoms have no neighbors")
    ∧ ((∀ row ∈ distances, ∃ d ∈ row, d.ltb cutoffRadius = true) →
      ∃ res, getSphericalHarmonics Y cutoffRadius distances = Except.ok res
        ∧ ∀ i row, distances.get? i = some row →
            res.get? i = some (withinSlotSum (Y i) cutoffRadius 0 row
              / ((row.filter (fun d => d.ltb cutoffRadius)).length : ℚ))) := by
  constructor
  · intro ⟨row, hrow, hall⟩
    have hany : distances.any (fun row => row.all (fun d => !(d.ltb cutoffRadius))) = true := by
      rw [List.any_eq_true]
      refine ⟨row, hrow, ?_⟩
      rw [List.all_eq_true]
      intro d hd
      simp [hall d hd]
    simp [getSphericalHarmonics, hany]
  · intro hok
    have hany : distances.any (fun row => row.all (fun d => !(d.ltb cutoffRadius))) = false := by
      rw [Bool.eq_false_iff]
      intro hc
      rw [List.any_eq_true] at hc
      obtain ⟨row, hrow, hall⟩ := hc
      rw [List.all_eq_true] at hall
      obtain ⟨d, hd, hdt⟩ := hok row hrow
      have := hall d hd
      simp [hdt] at this
    refine ⟨sphRows Y cutoffRadius 0 distances, by simp [getSphericalHarmonics, hany], ?_⟩
    intro i row hrow
    rw [sphRows_getElem, hrow]
    simp only [Option.map_some, Option.some.injEq, Nat.zero_add]
    simp only [sphRow, maskedHarmonicSum_eq_withinSlotSum, maskedCount_eq_filter_length]
    rfl

/-- C9 witness: on the table `[[1, 2, inf], [1, inf, inf]]` with harmonic
values `Y i j = j + 1` and unbounded cutoff, the averages are `3/2`
(2 finite neighbors, not 3 slots) and `1`; on the table `[[inf, inf]]`
the degenerate-geometry error is raised. -/
theorem spherical_harmonics_error_and_average_witness :
    (∃ res, getSphericalHarmonics (fun _ j => (j : ℚ) + 1) RFloat.inf
        [[RFloat.fin 1, RFloat.fin 2, RFloat.inf], [RFloat.fin 1, RFloat.inf, RFloat.inf]]
        = Except.ok res ∧ res.get? 0 = some (3/2) ∧ res.get? 1 = some 1)
    ∧ getSphericalHarmonics (fun _ j => (j : ℚ) + 1) RFloat.inf [[RFloat.inf, RFloat.inf]]
        = Except.error "cutoff_radius too small - some atoms have no neighbors" := by
  constructor
  · obtain ⟨res, hres, hget⟩ :=
      (spherical_harmonics_error_and_average (fun _ j => (j : ℚ) + 1) RFloat.inf
        [[RFloat.fin 1, RFloat.fin 2, RFloat.inf], [RFloat.fin 1, RFloat.inf, RFloat.inf]]).2
        (by decide)
    refine ⟨res, hres, ?_, ?_⟩
    · rw [hget 0 [RFloat.fin 1, RFloat.fin 2, RFloat.inf] rfl]
      norm_num [withinSlotSum, List.enumFrom, List.filter, RFloat.ltb]
    · rw [hget 1 [RFloat.fin 1, RFloat.inf, RFloat.inf] rfl]
      norm_num [withinSlotSum, List.enumFrom, List.filter, RFloat.ltb]
  · exact (spherical_harmonics_error_and_average (fun _ j => (j : ℚ) + 1) RFloat.inf
      [[RFloat.inf, RFloat.inf]]).1 (by decide)

theorem probeCluster_nil (indices : ℕ → List ℕ) (idList : List ℕ) :
    ∀ (fuel cCount : ℕ) (cluster : ℕ → ℕ),
      probeCluster indices idList fuel cCount [] cluster = (cluster, 0) := by
  intro fuel cCount cluster
  cases fuel <;> rfl

theorem probeCluster_outside (indices : ℕ → List ℕ) (idList : List ℕ) :
    ∀ (fuel cCount : ℕ) (nbrs : List ℕ) (cluster : ℕ → ℕ) (m : ℕ), m ∉ idList →
      (probeCluster indices idList fuel cCount nbrs cluster).1 m = cluster m := by
  intro fuel
  induction fuel with
  | zero => intro cCount nbrs cluster m hm; rfl
  | succ f ih =>
    intro cCount nbrs cluster m hm
    cases nbrs with
    | nil => rfl
    | cons nbrId rest =>
      by_cases hc : cluster nbrId = 0 ∧ nbrId ∈ idList
      · simp only [probeCluster, if_pos hc]
        rw [ih _ _ _ _ hm, ih _ _ _ _ hm]
        have hne : m ≠ nbrId := fun h => hm (h ▸ hc.2)
        simp [hne]
      · simp only [probeCluster, if_neg hc]
        exact ih _ _ _ _ hm

/-- Visiting the chain tail starting at atom `j` (with `k+1` atoms left in
the chain and everything from `j` on unvisited) marks `[j, n)` and reaches
probe recursion depth exactly `k+1`. -/
theorem probeCluster_chain (n cCount : ℕ) (idList : List ℕ)
    (hidl : ∀ m, m ∈ idList ↔ m < n) :
    ∀ (k j fuel : ℕ) (cluster : ℕ → ℕ),
      j + (k + 1) = n → k + 1 ≤ fuel → (∀ m, j ≤ m → cluster m = 0) →
      probeCluster (chainIndices n) idList fuel cCount [j] cluster
        = (fun m => if j ≤ m ∧ m < n then cCount else cluster m, k + 1) := by
  intro k
  induction k with
  | zero =>
    intro j fuel cluster hjn hfuel hcl
    obtain ⟨f, rfl⟩ : ∃ f, fuel = f + 1 := ⟨fuel - 1, by omega⟩
    have hc : cluster j = 0 ∧ j ∈ idList := ⟨hcl j le_rfl, (hidl j).2 (by omega)⟩
    have hend : chainIndices n j = [] := by
      unfold chainIndices
      rw [if_neg (by omega)]
    simp only [probeCluster, if_pos hc, hend, probeCluster_nil]
    refine Prod.ext ?_ rfl
    funext x
    simp only []
    by_cases hx : x = j
    · rw [if_pos hx, if_pos (show j ≤ x ∧ x < n by omega)]
    · rw [if_neg hx, if_neg (show ¬(j ≤ x ∧ x < n) by omega)]
  | succ k ih =>
    intro j fuel cluster hjn hfuel hcl
    obtain ⟨f, rfl⟩ : ∃ f, fuel = f + 1 := ⟨fuel - 1, by omega⟩
    have hc : cluster j = 0 ∧ j ∈ idList := ⟨hcl j le_rfl, (hidl j).2 (by omega)⟩
    have hchain : chainIndices n j = [j + 1] := by
      unfold chainIndices
      rw [if_pos (by omega)]
    simp only [probeCluster, if_pos hc, hchain]
    rw [ih (j + 1) f _ (by omega) (by omega)
      (by
        intro x hx
        simp only [if_neg (show ¬ x = j by omega)]
        exact hcl x (by omega))]
    simp only [probeCluster_nil]
    refine Prod.ext ?_ (by simp)
    funext x
    simp only []
    by_cases hx1 : j + 1 ≤ x ∧ x < n
    · rw [if_pos hx1, if_pos (show j ≤ x ∧ x < n by omega)]
    · rw [if_neg hx1]
      by_cases hx2 : x = j
      · rw [if_pos hx2, if_pos (show j ≤ x ∧ x < n by omega)]
      · rw [if_neg hx2, if_neg (show ¬(j ≤ x ∧ x < n) by omega)]

theorem clusterLoop_skip (indices : ℕ → List ℕ) (idList : List ℕ) (fuel : ℕ) :
    ∀ (ids : List ℕ) (cluster : ℕ → ℕ) (cCount depth : ℕ),
      (∀ ia ∈ ids, cluster ia ≠ 0) →
      clusterLoop indices idList fuel ids cluster cCount depth = (cluster, cCount, depth) := by
  intro ids
  induction ids with
  | nil => intro cluster cCount depth _; rfl
  | cons ia rest ih =>
    intro cluster cCount depth h
    simp only [clusterLoop, if_neg (h ia (List.mem_cons_self ia rest))]
    exact ih cluster cCount depth fun x hx => h x (List.mem_cons_of_mem ia hx)

theorem clusterLoop_outside (indices : ℕ → List ℕ) (idList : List ℕ) (fuel : ℕ) :
    ∀ (ids : List ℕ) (cluster : ℕ → ℕ) (cCount depth : ℕ) (m : ℕ),
      m ∉ idList → m ∉ ids →
      (clusterLoop indices idList fuel ids cluster cCount depth).1 m = cluster m := by
  intro ids
  induction ids with
  | nil => intro cluster cCount depth m _ _; rfl
  | cons ia rest ih =>
    intro cluster cCount depth m hmid hmids
    have hmrest : m ∉ rest := fun h => hmids (List.mem_cons_of_mem ia h)
    have hmia : m ≠ ia := fun h => hmids (h ▸ List.mem_cons_self ia rest)
    by_cases hc : cluster ia = 0
    · simp only [clusterLoop, if_pos hc]
      rw [ih _ _ _ _ hmid hmrest, probeCluster_outside _ _ _ _ _ _ _ hmid]
      simp [hmia]
    · simp only [clusterLoop, if_neg hc]
      exact ih _ _ _ _ hmid hmrest

/-- On the chain with `k+2` atoms, `cluster_analysis` over all atoms
reaches probe recursion depth exactly `k+1` (given fuel `k+2`, which is
plenty). -/
theorem clusterAnalysis_chain_depth (k : ℕ) :
    (clusterAnalysis (chainIndices (k + 2)) (List.range (k + 2)) (k + 2)).2.2 = k + 1 := by
  unfold clusterAnalysis
  rw [show List.range (k + 2) = 0 :: List.map Nat.succ (List.range (k + 1)) from
    List.range_succ_eq_map (k + 1)]
  have hidl : ∀ m, m ∈ 0 :: List.map Nat.succ (List.range (k + 1)) ↔ m < k + 2 := by
    intro m
    simp only [List.mem_cons, List.mem_map, List.mem_range]
    constructor
    · rintro (rfl | ⟨x, hx, rfl⟩) <;> omega
    · intro hm
      match m with
      | 0 => exact Or.inl rfl
      | x + 1 => exact Or.inr ⟨x, by omega, rfl⟩
  have hch : chainIndices (k + 2) 0 = [1] := by
    unfold chainIndices
    rw [if_pos (by omega)]
  simp only [clusterLoop, hch, if_true]
  rw [probeCluster_chain (k + 2) 1 _ hidl k 1 (k + 2) _ (by omega) (by omega)
    (by
      intro x hx
      simp only [if_neg (show ¬ x = 0 by omega)])]
  rw [clusterLoop_skip]
  · simp
  · intro ia hia
    rw [List.mem_map] at hia
    obtain ⟨x, hx, rfl⟩ := hia
    rw [List.mem_range] at hx
    simp only []
    rw [if_pos (show 1 ≤ Nat.succ x ∧ Nat.succ x < k + 2 by omega)]
    exact one_ne_zero

/-- C2 counterexample: the probe recursion depth of `cluster_analysis` is
not bounded independently of the atom count — on the chain of `n` atoms
it is `n - 1`, so no bound `B` covers all inputs. -/
theorem cluster_analysis_depth_not_bounded :
    ¬ ∃ B : ℕ, ∀ n : ℕ,
      (clusterAnalysis (chainIndices n) (List.range n) n).2.2 ≤ B := by
  rintro ⟨B, hB⟩
  have h := hB (B + 2)
  rw [clusterAnalysis_chain_depth B] at h
  omega

/-- C2 (amended): `cluster_analysis` flood-fills through the genuinely
recursive `__probe_cluster`, whose recursion depth grows linearly with
the cluster size (depth `k+1` on a chain of `k+2` atoms) instead of being
bounded by an explicit stack; the traversal does respect the id subset:
an atom outside `id_list` is never labeled. -/
theorem cluster_analysis_recursive_flood_fill :
    (∀ (indices : ℕ → List ℕ) (idList : List ℕ) (fuel m : ℕ), m ∉ idList →
      (clusterAnalysis indices idList fuel).1 m = 0)
    ∧ (∀ k : ℕ,
      (clusterAnalysis (chainIndices (k + 2)) (List.range (k + 2)) (k + 2)).2.2 = k + 1) := by
  constructor
  · intro indices idList fuel m hm
    exact clusterLoop_outside indices idList fuel idList _ _ _ m hm hm
  · exact clusterAnalysis_chain_depth

/-- C2 witness: atom `5` is outside the subset `[0, 1]` of a 3-atom chain
and stays unlabeled, and the 4-atom chain reaches probe depth `3`. -/
theorem cluster_analysis_recursive_flood_fill_witness :
    (clusterAnalysis (chainIndices 3) [0, 1] 3).1 5 = 0
    ∧ (clusterAnalysis (chainIndices 4) (List.range 4) 4).2.2 = 3 :=
  ⟨cluster_analysis_recursive_flood_fill.1 (chainIndices 3) [0, 1] 3 5 (by decide),
   cluster_analysis_recursive_flood_fill.2 2⟩

theorem vecMulMat_add (a b : Vec3) (m : Mat3) :
    vecMulMat (a + b) m = vecMulMat a m + vecMulMat b m := by
  funext j
  show (∑ i, (a i + b i) * m i j) = (∑ i, a i * m i j) + ∑ i, b i * m i j
  rw [← Finset.sum_add_distrib]
  exact Finset.sum_congr rfl fun i _ => by ring

/-- Wrapping is invariant under shifting the query position by an integer
combination of the lattice vectors (all axes periodic, wrapping on):
the floor shifts absorb the lattice vector exactly. -/
theorem wrapPosition_lattice_shift (cell cellInv : Mat3)
    (hInv : ∀ v : Vec3, vecMulMat (vecMulMat v cell) cellInv = v)
    (buffer : ℚ) (x : Vec3) (mI : Fin 3 → ℤ) :
    wrapPosition true (fun _ => true) cell cellInv buffer
        (x + vecMulMat (fun i => (mI i : ℚ)) cell)
      = wrapPosition true (fun _ => true) cell cellInv buffer x := by
  have hc : vecMulMat (vecMulMat (fun i => (mI i : ℚ)) cell) cellInv
      = fun i => (mI i : ℚ) := hInv _
  have hstep : ∀ i, vecMulMat (x + vecMulMat (fun i => (mI i : ℚ)) cell) cellInv i
      = vecMulMat x cellInv i + (mI i : ℚ) := by
    intro i
    rw [vecMulMat_add]
    show vecMulMat x cellInv i
        + vecMulMat (vecMulMat (fun i => (mI i : ℚ)) cell) cellInv i = _
    rw [congrFun hc i]
  have hfloor : ∀ i, ⌊vecMulMat (x + vecMulMat (fun i => (mI i : ℚ)) cell) cellInv i + buffer⌋
      = ⌊vecMulMat x cellInv i + buffer⌋ + mI i := by
    intro i
    rw [hstep i,
      show vecMulMat x cellInv i + (mI i : ℚ) + buffer
        = vecMulMat x cellInv i + buffer + (mI i : ℚ) by ring,
      Int.floor_add_int]
  have hfn : (fun i => ((⌊vecMulMat (x + vecMulMat (fun i => (mI i : ℚ)) cell) cellInv i
        + buffer⌋ : ℤ) : ℚ))
      = (fun i => ((⌊vecMulMat x cellInv i + buffer⌋ : ℤ) : ℚ)) + (fun i => (mI i : ℚ)) := by
    funext i
    show ((⌊vecMulMat (x + vecMulMat (fun i => (mI i : ℚ)) cell) cellInv i + buffer⌋ : ℤ) : ℚ)
      = ((⌊vecMulMat x cellInv i + buffer⌋ : ℤ) : ℚ) + (mI i : ℚ)
    rw [hfloor i]
    push_cast
    ring
  funext j
  show (x + vecMulMat (fun i => (mI i : ℚ)) cell) j
      - vecMulMat (fun i => ((⌊vecMulMat (x + vecMulMat (fun i => (mI i : ℚ)) cell) cellInv i
          + buffer⌋ : ℤ) : ℚ)) cell j
    = x j - vecMulMat (fun i => ((⌊vecMulMat x cellInv i + buffer⌋ : ℤ) : ℚ)) cell j
  rw [hfn, vecMulMat_add]
  show x j + vecMulMat (fun i => (mI i : ℚ)) cell j
      - (vecMulMat (fun i => ((⌊vecMulMat x cellInv i + buffer⌋ : ℤ) : ℚ)) cell j
        + vecMulMat (fun i => (mI i : ℚ)) cell j)
    = x j - vecMulMat (fun i => ((⌊vecMulMat x cellInv i + buffer⌋ : ℤ) : ℚ)) cell j
  ring

/-- C6 (amended): for a fully periodic structure with position wrapping
enabled, querying at `x` and at `x + c` for any integer-combination
lattice vector `c` yields exactly the same distances, the same remapped
indices and the same vectors — identical, not shifted by `-c`: the engine
folds both query positions to the same wrapped point before the kd-tree
query, and the vectors are built from the wrapped position. -/
theorem periodic_query_invariance (cell cellInv : Mat3)
    (hInv : ∀ v : Vec3, vecMulMat (vecMulMat v cell) cellInv = v)
    (buffer : ℚ) (treeQuery : Vec3 → List RawNeighbor)
    (wrappedIndices : ℕ → ℤ) (extendedPositions : ℕ → Vec3)
    (x : Vec3) (mI : Fin 3 → ℤ) :
    queryNeighborhood true (fun _ => true) cell cellInv buffer treeQuery wrappedIndices
        extendedPositions (x + vecMulMat (fun i => (mI i : ℚ)) cell)
      = queryNeighborhood true (fun _ => true) cell cellInv buffer treeQuery wrappedIndices
        extendedPositions x := by
  unfold queryNeighborhood
  rw [wrapPosition_lattice_shift cell cellInv hInv buffer x mI]

theorem cex_inv : ∀ v : Vec3, vecMulMat (vecMulMat v cexCell) cexCellInv = v := by
  intro v
  funext i
  show (∑ k, (∑ l, v l * cexCell l k) * cexCellInv k i) = v i
  fin_cases i <;>
    simp [Fin.sum_univ_three, cexCell, cexCellInv, Matrix.vecHead, Matrix.vecTail]

theorem cex_wrap_x :
    wrapPosition true (fun _ => true) cexCell cexCellInv cexBuffer cexX = cexX := by
  funext j
  show cexX j - vecMulMat
      (fun i => ((⌊vecMulMat cexX cexCellInv i + cexBuffer⌋ : ℤ) : ℚ)) cexCell j = cexX j
  have hfl : ∀ i : Fin 3, ⌊vecMulMat cexX cexCellInv i + cexBuffer⌋ = 0 := by
    intro i
    show ⌊(∑ k, cexX k * cexCellInv k i) + cexBuffer⌋ = 0
    fin_cases i <;>
      · simp [Fin.sum_univ_three, cexX, cexCellInv, cexBuffer, Matrix.vecHead, Matrix.vecTail]
        norm_num [Int.floor_eq_zero_iff]
  simp only [hfl]
  show cexX j - (∑ k, ((0 : ℤ) : ℚ) * cexCell k j) = cexX j
  simp

/-- C6 counterexample: with the single-atom cubic cell above (all axes
periodic, wrapping on), the query at `x + c` for the lattice vector
`c = (2,0,0) = (1,0,0)·cell` returns identical distances, indices and
*identical* vectors to the query at `x = (1,0,0)` — and those vectors are
not the vectors of the first query shifted by `-c`, contradicting the
claim at this input. -/
theorem periodicity_vector_shift_counterexample :
    cexC = vecMulMat (fun i => (((![1, 0, 0] : Fin 3 → ℤ) i) : ℚ)) cexCell
    ∧ queryNeighborhood true (fun _ => true) cexCell cexCellInv cexBuffer cexTreeQuery
        cexWrappedIdx cexExtPos (cexX + cexC)
      = queryNeighborhood true (fun _ => true) cexCell cexCellInv cexBuffer cexTreeQuery
        cexWrappedIdx cexExtPos cexX
    ∧ (queryNeighborhood true (fun _ => true) cexCell cexCellInv cexBuffer cexTreeQuery
        cexWrappedIdx cexExtPos (cexX + cexC)).2.2
      ≠ ((queryNeighborhood true (fun _ => true) cexCell cexCellInv cexBuffer cexTreeQuery
        cexWrappedIdx cexExtPos cexX).2.2).map (shiftVecBy cexC) := by
  have hcC : cexC = vecMulMat (fun i => (((![1, 0, 0] : Fin 3 → ℤ) i) : ℚ)) cexCell := by
    funext j
    show cexC j = ∑ i, ((((![1, 0, 0] : Fin 3 → ℤ) i)) : ℚ) * cexCell i j
    fin_cases j <;>
      simp [Fin.sum_univ_three, cexC, cexCell, Matrix.vecHead, Matrix.vecTail]
  have heq : queryNeighborhood true (fun _ => true) cexCell cexCellInv cexBuffer cexTreeQuery
        cexWrappedIdx cexExtPos (cexX + cexC)
      = queryNeighborhood true (fun _ => true) cexCell cexCellInv cexBuffer cexTreeQuery
        cexWrappedIdx cexExtPos cexX := by
    rw [hcC]
    unfold queryNeighborhood
    rw [wrapPosition_lattice_shift cexCell cexCellInv cex_inv cexBuffer cexX
      (![1, 0, 0] : Fin 3 → ℤ)]
  refine ⟨hcC, heq, ?_⟩
  rw [heq]
  unfold queryNeighborhood
  rw [cex_wrap_x]
  intro h
  simp only [cexTreeQuery, List.map] at h
  have h1 : neighborVec cexExtPos cexX ⟨RFloat.fin 1, 0⟩
      = shiftVecBy cexC (neighborVec cexExtPos cexX ⟨RFloat.fin 1, 0⟩) := by
    injection h
  have h0 := congrFun h1 0
  rw [neighborVec] at h0
  simp only [RFloat.ltb, if_pos] at h0
  rw [shiftVecBy] at h0
  simp only [cexExtPos, cexX, cexC] at h0
  norm_num at h0

/-- C6 witness (for the amended theorem): on the concrete single-atom
cubic setup, shifting the query by the lattice vector `(2,0,0)` leaves
the whole query result unchanged. -/
theorem periodic_query_invariance_witness :
    queryNeighborhood true (fun _ => true) cexCell cexCellInv cexBuffer cexTreeQuery
        cexWrappedIdx cexExtPos
        (cexX + vecMulMat (fun i => (((![1, 0, 0] : Fin 3 → ℤ) i) : ℚ)) cexCell)
      = queryNeighborhood true (fun _ => true) cexCell cexCellInv cexBuffer cexTreeQuery
        cexWrappedIdx cexExtPos cexX :=
  periodic_query_invariance cexCell cexCellInv cex_inv cexBuffer cexTreeQuery
    cexWrappedIdx cexExtPos cexX (![1, 0, 0] : Fin 3 → ℤ)

theorem storePreserved_refl {V : Type} (s : List V) : storePreserved s s :=
  ⟨le_rfl, fun _ _ => rfl⟩

theorem storePreserved_trans {V : Type} {s₀ s₁ s₂ : List V}
    (h₁ : storePreserved s₀ s₁) (h₂ : storePreserved s₁ s₂) : storePreserved s₀ s₂ :=
  ⟨le_trans h₁.1 h₂.1, fun i hi => (h₂.2 i (lt_of_lt_of_le hi h₁.1)).trans (h₁.2 i hi)⟩

theorem storePreserved_alloc {V : Type} {s₀ s : List V} (h : storePreserved s₀ s) (v : V) :
    storePreserved s₀ (allocStore s v).2 := by
  have hlen := h.1
  refine ⟨?_, ?_⟩
  · show s₀.length ≤ (s ++ [v]).length
    rw [List.length_append]
    omega
  · intro i hi
    show (s ++ [v])[i]? = s₀[i]?
    rw [List.getElem?_append_left (lt_of_lt_of_le hi h.1)]
    exact h.2 i hi

theorem storePreserved_write {V : Type} {s₀ s : List V} (h : storePreserved s₀ s) {j : ℕ}
    (hj : s₀.length ≤ j) (v : V) : storePreserved s₀ (writeStore s j v) := by
  refine ⟨?_, ?_⟩
  · show s₀.length ≤ (s.set j v).length
    rw [List.length_set]
    exact h.1
  · intro i hi
    show (s.set j v)[i]? = s₀[i]?
    rw [List.getElem?_set_ne (by omega)]
    exact h.2 i hi

theorem treeCopy_frame {V : Type} [Inhabited V] (t : TreeObj) (store : List V) :
    storePreserved store (treeCopy t store).2 := by
  simp only [treeCopy]
  exact storePreserved_alloc (storePreserved_alloc (storePreserved_alloc
    (storePreserved_refl store) _) _) _

theorem queryArraysHeap_frame {V : Type} [Inhabited V] (store : List V) (posId : ℕ)
    (wrapFlag : Bool) (wrapFn reshapeFn remapWrappedFn remapSentinelFn : V → V)
    (queryFn : V → V × V) :
    storePreserved store (queryArraysHeap store posId wrapFlag wrapFn reshapeFn
      remapWrappedFn remapSentinelFn queryFn).1 := by
  simp only [queryArraysHeap]
  set pw := (if wrapFlag then allocStore store (wrapFn (readStore store posId))
    else (posId, store)) with hpw
  have h1 : storePreserved store pw.2 := by
    rw [hpw]
    split
    · exact storePreserved_alloc (storePreserved_refl store) _
    · exact storePreserved_refl store
  set q := queryFn (readStore pw.2 pw.1) with hq
  set ad := allocStore pw.2 q.1 with had
  have h2 : storePreserved store ad.2 := storePreserved_alloc h1 _
  set ai := allocStore ad.2 q.2 with hai
  have h3 : storePreserved store ai.2 := storePreserved_alloc h2 _
  set ad1 := allocStore ai.2 (reshapeFn (readStore ai.2 ad.1)) with had1
  have h4 : storePreserved store ad1.2 := storePreserved_alloc h3 _
  set ai1 := allocStore ad1.2 (reshapeFn (readStore ad1.2 ai.1)) with hai1
  have h5 : storePreserved store ai1.2 := storePreserved_alloc h4 _
  set ae := allocStore ai1.2 (readStore ai1.2 ai1.1) with hae
  have h6 : storePreserved store ae.2 := storePreserved_alloc h5 _
  have hidx : store.length ≤ ai1.1 := by
    rw [hai1]
    show store.length ≤ ad1.2.length
    exact h4.1
  exact storePreserved_write (storePreserved_write h6 hidx _) hidx _

theorem getDistancesIndicesHeap_frame {V : Type} [Inhabited V] (t : TreeObj) (store : List V)
    (posId : ℕ) (wrapFn reshapeFn remapWrappedFn remapSentinelFn : V → V)
    (queryFn : V → V × V) (numNeighbors : Option ℤ) (cutoffRadius : RFloat)
    (widthBuffer gammaC volume : ℚ) (extLen : ℤ) (t1 : TreeObj) (s1 : List V) (dId iId : ℕ)
    (hok : getDistancesIndicesHeap t store posId wrapFn reshapeFn remapWrappedFn
      remapSentinelFn queryFn numNeighbors cutoffRadius widthBuffer gammaC volume extLen
      = Except.ok (t1, s1, dId, iId)) :
    storePreserved store s1 := by
  unfold getDistancesIndicesHeap at hok
  split at hok
  · exact Except.noConfusion hok
  · split at hok
    · exact Except.noConfusion hok
    · injection hok with hok1
      have hs : s1 = (queryArraysHeap store posId t.wrapPositionsFlag wrapFn reshapeFn
          remapWrappedFn remapSentinelFn queryFn).1 :=
        (congrArg (fun p => p.2.1) hok1).symm
      rw [hs]
      exact queryArraysHeap_frame store posId t.wrapPositionsFlag wrapFn reshapeFn
        remapWrappedFn remapSentinelFn queryFn

theorem getNeighborhoodHeapPriv_frame {V : Type} [Inhabited V] (t : TreeObj) (store : List V)
    (posId : ℕ) (wrapFn reshapeFn remapWrappedFn remapSentinelFn sliceFn : V → V)
    (queryFn : V → V × V) (numNeighbors : Option ℤ) (cutoffRadius : RFloat)
    (widthBuffer gammaC volume : ℚ) (extLen : ℤ) (excludeSelf : Bool)
    (nt : TreeObj) (store' : List V)
    (hok : getNeighborhoodHeapPriv t store posId wrapFn reshapeFn remapWrappedFn
      remapSentinelFn sliceFn queryFn numNeighbors cutoffRadius widthBuffer gammaC volume
      extLen excludeSelf = Except.ok (nt, store')) :
    storePreserved store store' := by
  unfold getNeighborhoodHeapPriv at hok
  dsimp only at hok
  cases hgdi : getDistancesIndicesHeap t store posId wrapFn reshapeFn remapWrappedFn
      remapSentinelFn queryFn
      (if excludeSelf then numNeighbors.map (· + 1) else numNeighbors)
      cutoffRadius widthBuffer gammaC volume extLen with
  | error e =>
    rw [hgdi] at hok
    exact Except.noConfusion hok
  | ok res =>
    rw [hgdi] at hok
    obtain ⟨t1, s1, dId, iId⟩ := res
    injection hok with hok1
    have hpres : storePreserved store s1 :=
      getDistancesIndicesHeap_frame t store posId wrapFn reshapeFn remapWrappedFn
        remapSentinelFn queryFn _ cutoffRadius widthBuffer gammaC volume extLen t1 s1 dId iId
        hgdi
    have hs : store' = (allocStore (allocStore (allocStore s1
        (sliceFn (readStore s1 dId))).2
        (sliceFn (readStore (allocStore s1 (sliceFn (readStore s1 dId))).2 iId))).2
        (sliceFn (readStore (allocStore (allocStore s1 (sliceFn (readStore s1 dId))).2
          (sliceFn (readStore (allocStore s1 (sliceFn (readStore s1 dId))).2 iId))).2
          t1.extendedIndicesId))).2 :=
      (congrArg (fun p => p.2) hok1).symm
    rw [hs]
    exact storePreserved_alloc (storePreserved_alloc (storePreserved_alloc hpres _) _) _

/-- C10: a successful `get_neighborhood` call computes its result on a
copy and leaves every pre-existing heap node — in particular the calling
engine's stored distances, indices, vectors and query positions —
unchanged; the caller's object record (including its frozen
`num_neighbors`/`cutoff_radius` attributes) is never written, since every
attribute assignment on the path targets the copy. -/
theorem get_neighborhood_frame {V : Type} [Inhabited V] (t : TreeObj) (store : List V)
    (posId : ℕ) (wrapFn reshapeFn remapWrappedFn remapSentinelFn sliceFn : V → V)
    (queryFn : V → V × V) (numNeighbors : Option ℤ) (cutoffRadius : RFloat)
    (widthBuffer gammaC volume : ℚ) (extLen : ℤ) (nt : TreeObj) (store' : List V)
    (hok : getNeighborhoodHeap t store posId wrapFn reshapeFn remapWrappedFn remapSentinelFn
      sliceFn queryFn numNeighbors cutoffRadius widthBuffer gammaC volume extLen
      = Except.ok (nt, store'))
    (hd : t.distancesId < store.length) (hi : t.indicesId < store.length)
    (hp : t.positionsId < store.length)
    (hv : ∀ vid, t.vecsId = some vid → vid < store.length) :
    readStore store' t.distancesId = readStore store t.distancesId
    ∧ readStore store' t.indicesId = readStore store t.indicesId
    ∧ readStore store' t.positionsId = readStore store t.positionsId
    ∧ (∀ vid, t.vecsId = some vid → readStore store' vid = readStore store vid)
    ∧ ∀ i, i < store.length → store'[i]? = store[i]? := by
  unfold getNeighborhoodHeap at hok
  have hpres : storePreserved store store' :=
    storePreserved_trans (treeCopy_frame t store)
      (getNeighborhoodHeapPriv_frame (treeCopy t store).1 (treeCopy t store).2 posId
        wrapFn reshapeFn remapWrappedFn remapSentinelFn sliceFn queryFn numNeighbors
        cutoffRadius widthBuffer gammaC volume extLen false nt store' hok)
  have hread : ∀ i, i < store.length → readStore store' i = readStore store i := by
    intro i hilt
    rw [readStore, readStore, List.getD_eq_getElem?_getD, List.getD_eq_getElem?_getD,
      hpres.2 i hilt]
  exact ⟨hread _ hd, hread _ hi, hread _ hp,
    fun vid hvid => hread vid (hv vid hvid), hpres.2⟩

/-- C10 witness: a concrete heap of five `ℕ`-valued nodes; after
`get_neighborhood` every original node still holds its value. -/
theorem get_neighborhood_frame_witness :
    ∃ (nt : TreeObj) (store' : List ℕ),
      getNeighborhoodHeap ⟨0, 1, none, 2, 3, none, none, none, RFloat.inf, false⟩
        ([10, 20, 30, 40, 50] : List ℕ) 4 id id id id id (fun v => (v + 1, v + 2))
        (some 5) RFloat.inf (6/5) 0 1 9
        = Except.ok (nt, store')
      ∧ ∀ i, i < 5 → store'[i]? = ([10, 20, 30, 40, 50] : List ℕ)[i]? := by
  refine ⟨_, _, rfl, ?_⟩
  have h := get_neighborhood_frame ⟨0, 1, none, 2, 3, none, none, none, RFloat.inf, false⟩
    ([10, 20, 30, 40, 50] : List ℕ) 4 id id id id id (fun v => (v + 1, v + 2))
    (some 5) RFloat.inf (6/5) 0 1 9 _ _ rfl
    (by decide) (by decide) (by decide) (fun _ hvid => Option.noConfusion hvid)
  exact h.2.2.2.2

end PyNeighbors

